import Mathlib

/-!
Verification of the air-quality data aggregation library of the
CDS505-GROUP11 dashboard.

The development shallowly embeds the pure data-transformation functions of
the repository:

* `src/types.ts` (utility part): `CategoryColors`, `parseCSV`,
  `getAverageAQI`, `getColorForAQI`, `getHealthImplications`;
* `src/App.tsx`: the derived aggregations `pollutantAverages`, `topCities`
  and `categoryDist`.

Modelling conventions:

* JavaScript numbers holding integer data are modelled as `ℤ`; the float
  division inside `Math.round(sum / count)` is modelled exactly in `ℚ`
  (the integer sums and counts involved are far below 2^53, where double
  arithmetic on integers is exact, and the rounded quotient agrees with the
  rational one for this data scale).  `Math.round x` is `⌊x + 1/2⌋`.
* `NaN` (the result of a failed `parseInt`) is modelled as `none` in
  `Option ℤ`.
* For the CSV parser, strings are modelled as `List Char` so that the
  splitting on `'\n'` and `','` can be reasoned about directly.
* A JavaScript object built by assigning keys in a fixed order is modelled
  as an association list in that key order; `Array.prototype.sort` (stable
  per the ECMAScript specification) is modelled as a stable insertion sort.
-/

namespace AirQuality


/-- Strings of the CSV-parsing fragment are modelled as lists of characters. -/
abbrev Str := List Char

/-! Section: Category colors (src/types.ts, `CategoryColors`) -/

/-- The fixed label→color table `CategoryColors` of `src/types.ts`. -/
def CategoryColors : List (String × String) :=
  [("Good", "#4ade80"),
   ("Moderate", "#facc15"),
   ("Unhealthy for Sensitive Groups", "#fb923c"),
   ("Unhealthy", "#f87171"),
   ("Very Unhealthy", "#a78bfa"),
   ("Hazardous", "#881337")]

/-- `CategoryColors[label]` for a key that is present in the table (the
`.getD` default is unreachable for the six labels used by the code). -/
def catColorIdx (label : String) : String :=
  (CategoryColors.lookup label).getD ""

/-- `CategoryColors[label] || '#ccc'`, as used by `categoryDist` in
`src/App.tsx`. -/
def catColorOrGray (label : String) : String :=
  (CategoryColors.lookup label).getD "#ccc"

/-! Section: `getColorForAQI` (src/types.ts, lines 238–245) -/

/-- Embedding of `getColorForAQI`. -/
def getColorForAQI (aqi : ℤ) : String :=
  if aqi ≤ 50 then catColorIdx "Good"
  else if aqi ≤ 100 then catColorIdx "Moderate"
  else if aqi ≤ 150 then catColorIdx "Unhealthy for Sensitive Groups"
  else if aqi ≤ 200 then catColorIdx "Unhealthy"
  else if aqi ≤ 300 then catColorIdx "Very Unhealthy"
  else catColorIdx "Hazardous"

/-! Section: `getHealthImplications` (src/types.ts, lines 247–254) -/

/-- The `{impact, advice}` pair returned by `getHealthImplications`. -/
structure HealthImplications where
  impact : String
  advice : String
deriving DecidableEq, Repr

/-- Bucket 0 (`aqi ≤ 50`) result of `getHealthImplications`. -/
def goodHealth : HealthImplications :=
  ⟨"Air quality is satisfactory, and air pollution poses little or no risk.",
   "It\x27s a great day to be active outside."⟩

/-- Bucket 1 (`aqi ≤ 100`) result of `getHealthImplications`. -/
def moderateHealth : HealthImplications :=
  ⟨"Air quality is acceptable. However, there may be a risk for some people, particularly those who are unusually sensitive to air pollution.",
   "Unusually sensitive people should consider reducing prolonged or heavy exertion."⟩

/-- Bucket 2 (`aqi ≤ 150`) result of `getHealthImplications`. -/
def sensitiveHealth : HealthImplications :=
  ⟨"Members of sensitive groups may experience health effects. The general public is less likely to be affected.",
   "People with heart or lung disease, older adults, and children should reduce prolonged or heavy exertion."⟩

/-- Bucket 3 (`aqi ≤ 200`) result of `getHealthImplications`. -/
def unhealthyHealth : HealthImplications :=
  ⟨"Everyone may begin to experience health effects; members of sensitive groups may experience more serious health effects.",
   "People with heart or lung disease, older adults, and children should avoid prolonged or heavy exertion. Everyone else should reduce prolonged or heavy exertion."⟩

/-- Bucket 4 (`aqi ≤ 300`) result of `getHealthImplications`. -/
def veryUnhealthyHealth : HealthImplications :=
  ⟨"Health warnings of emergency conditions. The entire population is more likely to be affected.",
   "People with heart or lung disease, older adults, and children should avoid all physical activity outdoors. Everyone else should avoid prolonged or heavy exertion."⟩

/-- Bucket 5 (`aqi > 300`) result of `getHealthImplications`. -/
def hazardousHealth : HealthImplications :=
  ⟨"Health alert: everyone may experience more serious health effects.",
   "Everyone should avoid all physical activity outdoors."⟩

/-- Embedding of `getHealthImplications`. -/
def getHealthImplications (aqi : ℤ) : HealthImplications :=
  if aqi ≤ 50 then goodHealth
  else if aqi ≤ 100 then moderateHealth
  else if aqi ≤ 150 then sensitiveHealth
  else if aqi ≤ 200 then unhealthyHealth
  else if aqi ≤ 300 then veryUnhealthyHealth
  else hazardousHealth

/-- The six bucket colors, indexed in severity order (the order of the
branches of `getColorForAQI` and of the `CategoryColors` table). -/
def colorOfBucket : Fin 6 → String
  | 0 => catColorIdx "Good"
  | 1 => catColorIdx "Moderate"
  | 2 => catColorIdx "Unhealthy for Sensitive Groups"
  | 3 => catColorIdx "Unhealthy"
  | 4 => catColorIdx "Very Unhealthy"
  | 5 => catColorIdx "Hazardous"

/-- The six bucket health pairs, indexed in severity order (the order of the
branches of `getHealthImplications`). -/
def healthOfBucket : Fin 6 → HealthImplications
  | 0 => goodHealth
  | 1 => moderateHealth
  | 2 => sensitiveHealth
  | 3 => unhealthyHealth
  | 4 => veryUnhealthyHealth
  | 5 => hazardousHealth

/-! Section: Typed records (src/types.ts, `AQIRecord`)

Field names follow the `AQIRecord` interface: `country ↦ Country`,
`city ↦ City`, `aqiValue ↦ "AQI Value"`, `aqiCategory ↦ "AQI Category"`,
and likewise for the CO, Ozone, NO2 and PM2.5 sub-indices. -/

/-- Embedding of the `AQIRecord` interface. -/
structure AQIRecord where
  country : String
  city : String
  aqiValue : ℤ
  aqiCategory : String
  coValue : ℤ
  coCategory : String
  ozoneValue : ℤ
  ozoneCategory : String
  no2Value : ℤ
  no2Category : String
  pm25Value : ℤ
  pm25Category : String
deriving DecidableEq, Repr

/-- `Math.round`: rounds to the nearest integer, halves toward +∞. -/
def jsRound (x : ℚ) : ℤ := ⌊x + 1/2⌋

/-! Section: `getAverageAQI` (src/types.ts, lines 232–236) -/

/-- Embedding of `getAverageAQI`: 0 on the empty list, otherwise
`Math.round` of the reduce-sum of the `"AQI Value"` fields over the length. -/
def getAverageAQI (data : List AQIRecord) : ℤ :=
  if data.length = 0 then 0
  else
    jsRound (((data.foldl (fun acc r => acc + r.aqiValue) 0 : ℤ) : ℚ)
      / (data.length : ℚ))

/-- A record with a given AQI value and fixed dummy remaining fields, used
for concrete test inputs. -/
def demoRec (aqi : ℤ) : AQIRecord :=
  { country := "X", city := "C", aqiValue := aqi, aqiCategory := "Good",
    coValue := 0, coCategory := "Good", ozoneValue := 0,
    ozoneCategory := "Good", no2Value := 0, no2Category := "Good",
    pm25Value := 0, pm25Category := "Good" }

/-! Section: `pollutantAverages` (src/App.tsx, lines 420–445) -/

/-- Embedding of the `pollutantAverages` memo of `src/App.tsx`: empty output
for an empty subset, otherwise one pass accumulating the five sums followed
by the fixed-order list of rounded means. -/
def pollutantAverages (countryData : List AQIRecord) : List (String × ℤ) :=
  if countryData.length = 0 then []
  else
    let sums :=
      countryData.foldl
        (fun s r =>
          (s.1 + r.aqiValue, s.2.1 + r.pm25Value, s.2.2.1 + r.coValue,
           s.2.2.2.1 + r.no2Value, s.2.2.2.2 + r.ozoneValue))
        ((0, 0, 0, 0, 0) : ℤ × ℤ × ℤ × ℤ × ℤ)
    [("Total", jsRound ((sums.1 : ℚ) / (countryData.length : ℚ))),
     ("PM2.5", jsRound ((sums.2.1 : ℚ) / (countryData.length : ℚ))),
     ("CO", jsRound ((sums.2.2.1 : ℚ) / (countryData.length : ℚ))),
     ("NO2", jsRound ((sums.2.2.2.1 : ℚ) / (countryData.length : ℚ))),
     ("Ozone", jsRound ((sums.2.2.2.2 : ℚ) / (countryData.length : ℚ)))]

/-! Section: `topCities` (src/App.tsx, lines 447–451)

`[...data].sort((a, b) => b[pollutantType] - a[pollutantType]).slice(0, 10)`.
`Array.prototype.sort` is stable per the ECMAScript specification and the
comparator orders by the selected field descending, leaving tied elements
in original order; any stable sort for that preorder produces the same
list, so the sort is modelled as a stable insertion sort. -/

/-- The ranking fields offered for `topCities` (the `pollutantType` state):
total AQI, PM2.5, CO, NO2, Ozone. -/
inductive PollutantField
  | total
  | pm25
  | co
  | no2
  | ozone
deriving DecidableEq, Repr

/-- The record field selected by each `PollutantField`. -/
def fieldVal : PollutantField → AQIRecord → ℤ
  | .total => fun r => r.aqiValue
  | .pm25 => fun r => r.pm25Value
  | .co => fun r => r.coValue
  | .no2 => fun r => r.no2Value
  | .ozone => fun r => r.ozoneValue

/-- Insert `x` into a key-descending list, after all already-present
elements whose key is ≥ `key x` (so that elements arriving later stay after
earlier tied ones: stability). -/
def insertDesc {α : Type} (key : α → ℤ) (x : α) : List α → List α
  | [] => [x]
  | y :: l => if key y < key x then x :: y :: l else y :: insertDesc key x l

/-- Stable sort by `key`, descending: the unique stable sort for the
comparator `(a, b) => key b - key a`. -/
def sortByDesc {α : Type} (key : α → ℤ) (l : List α) : List α :=
  l.foldl (fun acc x => insertDesc key x acc) []

/-- Embedding of the `topCities` memo of `src/App.tsx`. -/
def topCities (k : PollutantField) (data : List AQIRecord) : List AQIRecord :=
  (sortByDesc (fieldVal k) data).take 10

/-! Section: `categoryDist` (src/App.tsx, lines 453–463)

`counts[cat] = (counts[cat] || 0) + 1` over a plain object, then
`Object.entries(counts).map(([label, value]) => {label, value, color})`.
The object is modelled as an association list in key-insertion order:
an existing key is incremented in place, a new key is appended. -/

/-- One step of the counting loop: increment the entry of `k`, or append
`(k, 1)` if `k` is not yet a key. -/
def bumpCount : List (String × ℕ) → String → List (String × ℕ)
  | [], k => [(k, 1)]
  | (k', v) :: rest, k =>
    if k' = k then (k', v + 1) :: rest else (k', v) :: bumpCount rest k

/-- Embedding of the `categoryDist` memo of `src/App.tsx`: entries
`(label, value, color)` with the color from `CategoryColors[label] || '#ccc'`. -/
def categoryDist (countryData : List AQIRecord) : List (String × ℕ × String) :=
  (countryData.foldl (fun acc d => bumpCount acc d.aqiCategory) []).map
    (fun p => (p.1, p.2, catColorOrGray p.1))

/-- The full invariant of the counting loop: after consuming `prev`, the
association list has nodup keys, each entry counts its key's occurrences in
`prev` (positively), the keys are exactly the values occurring in `prev`,
and the counts sum to `prev.length`. -/
def CountInv (acc : List (String × ℕ)) (prev : List String) : Prop :=
  ((acc.map Prod.snd).sum = prev.length)
  ∧ (∀ p ∈ acc, p.2 = prev.count p.1 ∧ 0 < p.2)
  ∧ (∀ c : String, c ∈ acc.map Prod.fst ↔ c ∈ prev)
  ∧ (acc.map Prod.fst).Nodup

/-! Section: `parseCSV` (src/types.ts, lines 205–230)

The parser is embedded over `Str = List Char`.  `String.prototype.split`
with a one-character separator cuts at every occurrence of the separator
and keeps empty pieces, so `splitCh` below returns `[[]]` on the empty
string, exactly like `"".split(',') == [""]`.  `String.prototype.trim`
strips leading and trailing whitespace; the model covers the ASCII
whitespace characters, which are the only ones relevant to this data.
`parseInt(value, 10)` skips leading whitespace, consumes an optional sign
and then the longest prefix of decimal digits, and yields `NaN` (modelled
as `none`) when no digit is found.  The record object whose keys are
assigned in header order is modelled as an association list in header
order (exact for duplicate-free headers; the fixed 12-column schema has
distinct headers). -/

/-- Whitespace stripped by `trim` and skipped by `parseInt`. -/
def isJsWS (c : Char) : Bool := c = ' ' || c = '\t' || c = '\n' || c = '\r'

/-- `String.prototype.trim`. -/
def trim (s : Str) : Str :=
  ((s.dropWhile isJsWS).reverse.dropWhile isJsWS).reverse

/-- `String.prototype.split` with a one-character separator. -/
def splitCh (c : Char) : Str → List Str
  | [] => [[]]
  | x :: xs =>
    match splitCh c xs with
    | [] => [[]]
    | y :: ys => if x = c then [] :: y :: ys else (x :: y) :: ys

/-- Value of a nonempty string of decimal digits. -/
def digitsVal (ds : Str) : ℤ :=
  ds.foldl (fun a c => a * 10 + ((c.toNat : ℤ) - 48)) 0

/-- `parseInt(s, 10)`: skip leading whitespace, optional sign, then the
longest decimal-digit prefix; `none` (`NaN`) when no digit follows. -/
def parseIntJS (s : Str) : Option ℤ :=
  match s.dropWhile isJsWS with
  | '-' :: r =>
    let ds := r.takeWhile Char.isDigit
    if ds = [] then none else some (-(digitsVal ds))
  | '+' :: r =>
    let ds := r.takeWhile Char.isDigit
    if ds = [] then none else some (digitsVal ds)
  | r =>
    let ds := r.takeWhile Char.isDigit
    if ds = [] then none else some (digitsVal ds)

/-- `needle` is a prefix-aligned match of `hay`. -/
def leadMatch : Str → Str → Bool
  | [], _ => true
  | _ :: _, [] => false
  | a :: as, b :: bs => a = b && leadMatch as bs

/-- `hay.includes(needle)`: `needle` occurs contiguously in `hay`. -/
def hasSub (needle : Str) : Str → Bool
  | [] => decide (needle = [])
  | b :: bs => leadMatch needle (b :: bs) || hasSub needle bs

/-- `header.includes("Value")`. -/
def isValueHeader (h : Str) : Bool := hasSub "Value".toList h

/-- A parsed field: a JavaScript number (`none` = `NaN`) for `"Value"`
columns, otherwise the raw text. -/
inductive FieldVal
  | num : Option ℤ → FieldVal
  | text : Str → FieldVal
deriving DecidableEq, Repr

/-- One key/value assignment `record[header] = ...` of the parser loop. -/
def mkField (h v : Str) : Str × FieldVal :=
  (h, if isValueHeader h then FieldVal.num (parseIntJS v) else FieldVal.text v)

/-- The record built for one row whose field count matches the header. -/
def mkRecord (hs vs : List Str) : List (Str × FieldVal) :=
  (hs.zip vs).map (fun p => mkField p.1 p.2)

/-- Embedding of `parseCSV`: split the trimmed text into lines, take the
field names from the first line, and for each further line of matching
field count push the typed record (lines of any other field count are
skipped).  `splitCh` never returns `[]`, so `headD []` is the JS
`lines[0]`. -/
def parseCSV (csv : Str) : List (List (Str × FieldVal)) :=
  let lines := splitCh '\n' (trim csv)
  let headers := splitCh ',' (lines.headD [])
  lines.tail.filterMap (fun line =>
    let cur := splitCh ',' line
    if cur.length = headers.length then some (mkRecord headers cur) else none)

/-- Builder of a CSV text from header fields and row fields: lines joined
by `'\n'`, fields of a line joined by `','`. -/
def joinCh (c : Char) : List Str → Str
  | [] => []
  | [s] => s
  | s :: ss => s ++ c :: joinCh c ss

/-- The CSV text of a header-field list and a list of row-field lists. -/
def assemble (hs : List Str) (rows : List (List Str)) : Str :=
  joinCh '\n' (joinCh ',' hs :: rows.map (joinCh ','))

/-- Header fields of the concrete test CSV. -/
def demoHeaders : List Str := ["City".toList, "AQI Value".toList]

/-- Two well-formed rows for the concrete test CSV. -/
def demoRows : List (List Str) :=
  [["Delhi".toList, "450".toList], ["Oslo".toList, "20".toList]]

/-- Rows with a malformed (one-field) row in the middle. -/
def demoRowsMixed : List (List Str) :=
  [["Delhi".toList, "450".toList], ["broken".toList],
   ["Oslo".toList, "20".toList]]

/-- A row whose `"AQI Value"` field is not numeric. -/
def demoBadRow : List Str := ["Delhi".toList, "abc".toList]

/-! Section: Theorems -/

/-- C1: `getColorForAQI` maps every integer AQI to one of six fixed color
buckets via inclusive upper-bound thresholds (≤50 Good, ≤100 Moderate,
≤150 Unhealthy-for-Sensitive-Groups, ≤200 Unhealthy, ≤300 Very-Unhealthy,
else Hazardous); in particular the boundaries 50, 51 and 500 land in the
Good, Moderate and Hazardous buckets respectively. -/
theorem colorForAQI_buckets :
    (∀ aqi : ℤ,
      (aqi ≤ 50 → getColorForAQI aqi = catColorIdx "Good")
      ∧ (50 < aqi → aqi ≤ 100 → getColorForAQI aqi = catColorIdx "Moderate")
      ∧ (100 < aqi → aqi ≤ 150 →
          getColorForAQI aqi = catColorIdx "Unhealthy for Sensitive Groups")
      ∧ (150 < aqi → aqi ≤ 200 → getColorForAQI aqi = catColorIdx "Unhealthy")
      ∧ (200 < aqi → aqi ≤ 300 →
          getColorForAQI aqi = catColorIdx "Very Unhealthy")
      ∧ (300 < aqi → getColorForAQI aqi = catColorIdx "Hazardous"))
    ∧ getColorForAQI 50 = catColorIdx "Good"
    ∧ getColorForAQI 51 = catColorIdx "Moderate"
    ∧ getColorForAQI 500 = catColorIdx "Hazardous" := by
  refine ⟨fun aqi => ⟨?_, ?_, ?_, ?_, ?_, ?_⟩, by decide, by decide, by decide⟩
  · intro h1; simp [getColorForAQI, h1]
  · intro h1 h2
    simp [getColorForAQI, h2, show ¬ aqi ≤ 50 by omega]
  · intro h1 h2
    simp [getColorForAQI, h2, show ¬ aqi ≤ 50 by omega, show ¬ aqi ≤ 100 by omega]
  · intro h1 h2
    simp [getColorForAQI, h2, show ¬ aqi ≤ 50 by omega, show ¬ aqi ≤ 100 by omega,
      show ¬ aqi ≤ 150 by omega]
  · intro h1 h2
    simp [getColorForAQI, h2, show ¬ aqi ≤ 50 by omega, show ¬ aqi ≤ 100 by omega,
      show ¬ aqi ≤ 150 by omega, show ¬ aqi ≤ 200 by omega]
  · intro h1
    simp [getColorForAQI, show ¬ aqi ≤ 50 by omega, show ¬ aqi ≤ 100 by omega,
      show ¬ aqi ≤ 150 by omega, show ¬ aqi ≤ 200 by omega, show ¬ aqi ≤ 300 by omega]

/-- C1 witness: the bucket implications applied at the concrete inputs
60 and 250. -/
theorem colorForAQI_buckets_witness :
    getColorForAQI 60 = catColorIdx "Moderate"
    ∧ getColorForAQI 250 = catColorIdx "Very Unhealthy" :=
  ⟨(colorForAQI_buckets.1 60).2.1 (by decide) (by decide),
   (colorForAQI_buckets.1 250).2.2.2.2.1 (by decide) (by decide)⟩

/-- C2: for every integer AQI in [0, 500], `getColorForAQI` and
`getHealthImplications` select the same bucket index out of the six buckets:
there is a single index whose color the former returns and whose
impact/advice pair the latter returns. -/
theorem color_health_same_bucket (aqi : ℤ) (h0 : 0 ≤ aqi) (h500 : aqi ≤ 500) :
    ∃ i : Fin 6,
      getColorForAQI aqi = colorOfBucket i
      ∧ getHealthImplications aqi = healthOfBucket i := by
  rcases le_or_lt aqi 50 with h | h
  · exact ⟨0, by simp [getColorForAQI, h, colorOfBucket],
      by simp [getHealthImplications, h, healthOfBucket]⟩
  · rcases le_or_lt aqi 100 with h2 | h2
    · refine ⟨1, ?_, ?_⟩ <;>
        simp [getColorForAQI, getHealthImplications, h2,
          show ¬ aqi ≤ 50 by omega, colorOfBucket, healthOfBucket]
    · rcases le_or_lt aqi 150 with h3 | h3
      · refine ⟨2, ?_, ?_⟩ <;>
          simp [getColorForAQI, getHealthImplications, h3,
            show ¬ aqi ≤ 50 by omega, show ¬ aqi ≤ 100 by omega,
            colorOfBucket, healthOfBucket]
      · rcases le_or_lt aqi 200 with h4 | h4
        · refine ⟨3, ?_, ?_⟩ <;>
            simp [getColorForAQI, getHealthImplications, h4,
              show ¬ aqi ≤ 50 by omega, show ¬ aqi ≤ 100 by omega,
              show ¬ aqi ≤ 150 by omega, colorOfBucket, healthOfBucket]
        · rcases le_or_lt aqi 300 with h5 | h5
          · refine ⟨4, ?_, ?_⟩ <;>
              simp [getColorForAQI, getHealthImplications, h5,
                show ¬ aqi ≤ 50 by omega, show ¬ aqi ≤ 100 by omega,
                show ¬ aqi ≤ 150 by omega, show ¬ aqi ≤ 200 by omega,
                colorOfBucket, healthOfBucket]
          · refine ⟨5, ?_, ?_⟩ <;>
              simp [getColorForAQI, getHealthImplications,
                show ¬ aqi ≤ 50 by omega, show ¬ aqi ≤ 100 by omega,
                show ¬ aqi ≤ 150 by omega, show ¬ aqi ≤ 200 by omega,
                show ¬ aqi ≤ 300 by omega, colorOfBucket, healthOfBucket]

/-- C2 witness: the common-bucket statement at the concrete input 120. -/
theorem color_health_same_bucket_witness :
    (0 : ℤ) ≤ 120 ∧ (120 : ℤ) ≤ 500
    ∧ ∃ i : Fin 6,
        getColorForAQI 120 = colorOfBucket i
        ∧ getHealthImplications 120 = healthOfBucket i :=
  ⟨by decide, by decide, color_health_same_bucket 120 (by decide) (by decide)⟩

/-- C10: `getColorForAQI` is total over all integers: every integer AQI,
including negative ones, is mapped to one of the exactly six color tokens
of the `CategoryColors` table, and every negative AQI is mapped to the Good
color because the first branch has no lower bound. -/
theorem colorForAQI_total :
    (∀ aqi : ℤ, getColorForAQI aqi ∈ CategoryColors.map Prod.snd)
    ∧ (∀ aqi : ℤ, aqi < 0 → getColorForAQI aqi = catColorIdx "Good") := by
  constructor
  · intro aqi
    unfold getColorForAQI
    split
    · decide
    · split
      · decide
      · split
        · decide
        · split
          · decide
          · split
            · decide
            · decide
  · intro aqi h
    simp [getColorForAQI, show aqi ≤ 50 by omega]

/-- C10 witness: totality and the negative-input behaviour at the concrete
input -5. -/
theorem colorForAQI_total_witness :
    getColorForAQI (-5) ∈ CategoryColors.map Prod.snd
    ∧ ((-5 : ℤ) < 0 ∧ getColorForAQI (-5) = catColorIdx "Good") :=
  ⟨colorForAQI_total.1 (-5), by decide, colorForAQI_total.2 (-5) (by decide)⟩

/-- A left fold accumulating a projection is the sum of the mapped list. -/
theorem foldl_add_proj (f : AQIRecord → ℤ) :
    ∀ (l : List AQIRecord) (a : ℤ),
      l.foldl (fun acc r => acc + f r) a = a + (l.map f).sum := by
  intro l
  induction l with
  | nil => simp
  | cons hd tl ih =>
    intro a
    simp [List.foldl_cons, ih, List.map_cons, List.sum_cons]
    ring

/-- C5: `getAverageAQI` returns 0 on the empty sequence; on a non-empty
sequence it is the arithmetic mean of the `"AQI Value"` fields rounded to
the nearest integer; in particular two records with AQI 10 and 20 average
to 15. -/
theorem averageAQI_spec :
    getAverageAQI [] = 0
    ∧ (∀ data : List AQIRecord, data ≠ [] →
        getAverageAQI data
          = jsRound ((((data.map (fun r => r.aqiValue)).sum : ℤ) : ℚ)
              / (data.length : ℚ)))
    ∧ getAverageAQI [demoRec 10, demoRec 20] = 15 := by
  refine ⟨rfl, ?_, ?_⟩
  · intro data hne
    have hlen : data.length ≠ 0 := by simpa using hne
    simp [getAverageAQI, hlen, foldl_add_proj]
  · norm_num [getAverageAQI, jsRound, demoRec]

/-- C5 witness: the mean formula applied at the concrete two-record list. -/
theorem averageAQI_spec_witness :
    ([demoRec 10, demoRec 20] : List AQIRecord) ≠ []
    ∧ getAverageAQI [demoRec 10, demoRec 20]
        = jsRound (((((([demoRec 10, demoRec 20] : List AQIRecord).map
            (fun r => r.aqiValue)).sum : ℤ) : ℚ))
          / (([demoRec 10, demoRec 20] : List AQIRecord).length : ℚ)) :=
  ⟨by simp, averageAQI_spec.2.1 [demoRec 10, demoRec 20] (by simp)⟩

/-- The one-pass five-sum fold computes the five componentwise sums. -/
theorem foldl_five_sums :
    ∀ (l : List AQIRecord) (a b c d e : ℤ),
      l.foldl
        (fun s r =>
          (s.1 + r.aqiValue, s.2.1 + r.pm25Value, s.2.2.1 + r.coValue,
           s.2.2.2.1 + r.no2Value, s.2.2.2.2 + r.ozoneValue))
        (a, b, c, d, e)
      = (a + (l.map (fun r => r.aqiValue)).sum,
         b + (l.map (fun r => r.pm25Value)).sum,
         c + (l.map (fun r => r.coValue)).sum,
         d + (l.map (fun r => r.no2Value)).sum,
         e + (l.map (fun r => r.ozoneValue)).sum) := by
  intro l
  induction l with
  | nil => simp
  | cons hd tl ih =>
    intro a b c d e
    simp only [List.foldl_cons, ih, List.map_cons, List.sum_cons,
      Prod.mk.injEq]
    exact ⟨by ring, by ring, by ring, by ring, by ring⟩

/-- The one-pass five-sum fold from the zero accumulator. -/
theorem foldl_five_sums_zero (l : List AQIRecord) :
    l.foldl
        (fun s r =>
          (s.1 + r.aqiValue, s.2.1 + r.pm25Value, s.2.2.1 + r.coValue,
           s.2.2.2.1 + r.no2Value, s.2.2.2.2 + r.ozoneValue))
        ((0, 0, 0, 0, 0) : ℤ × ℤ × ℤ × ℤ × ℤ)
      = ((l.map (fun r => r.aqiValue)).sum,
         (l.map (fun r => r.pm25Value)).sum,
         (l.map (fun r => r.coValue)).sum,
         (l.map (fun r => r.no2Value)).sum,
         (l.map (fun r => r.ozoneValue)).sum) := by
  simpa using foldl_five_sums l 0 0 0 0 0

/-- C8: `pollutantAverages` returns the empty list on an empty subset, and
on a non-empty subset returns exactly five (label, value) pairs in the
fixed order overall AQI, PM2.5, CO, NO2, Ozone, each value the rounded mean
of the corresponding field. -/
theorem pollutantAverages_spec :
    pollutantAverages [] = []
    ∧ ∀ data : List AQIRecord, data ≠ [] →
        pollutantAverages data =
          [("Total",
            jsRound ((((data.map (fun r => r.aqiValue)).sum : ℤ) : ℚ)
              / (data.length : ℚ))),
           ("PM2.5",
            jsRound ((((data.map (fun r => r.pm25Value)).sum : ℤ) : ℚ)
              / (data.length : ℚ))),
           ("CO",
            jsRound ((((data.map (fun r => r.coValue)).sum : ℤ) : ℚ)
              / (data.length : ℚ))),
           ("NO2",
            jsRound ((((data.map (fun r => r.no2Value)).sum : ℤ) : ℚ)
              / (data.length : ℚ))),
           ("Ozone",
            jsRound ((((data.map (fun r => r.ozoneValue)).sum : ℤ) : ℚ)
              / (data.length : ℚ)))] := by
  refine ⟨rfl, ?_⟩
  intro data hne
  have hlen : data.length ≠ 0 := by simpa using hne
  simp only [pollutantAverages, if_neg hlen, foldl_five_sums_zero]

/-- C8 witness: the five-pair output at the concrete two-record list. -/
theorem pollutantAverages_spec_witness :
    ([demoRec 10, demoRec 20] : List AQIRecord) ≠ []
    ∧ pollutantAverages [demoRec 10, demoRec 20] =
        [("Total",
          jsRound ((((([demoRec 10, demoRec 20] : List AQIRecord).map
              (fun r => r.aqiValue)).sum : ℤ) : ℚ) / 2)),
         ("PM2.5",
          jsRound ((((([demoRec 10, demoRec 20] : List AQIRecord).map
              (fun r => r.pm25Value)).sum : ℤ) : ℚ) / 2)),
         ("CO",
          jsRound ((((([demoRec 10, demoRec 20] : List AQIRecord).map
              (fun r => r.coValue)).sum : ℤ) : ℚ) / 2)),
         ("NO2",
          jsRound ((((([demoRec 10, demoRec 20] : List AQIRecord).map
              (fun r => r.no2Value)).sum : ℤ) : ℚ) / 2)),
         ("Ozone",
          jsRound ((((([demoRec 10, demoRec 20] : List AQIRecord).map
              (fun r => r.ozoneValue)).sum : ℤ) : ℚ) / 2))] :=
  ⟨by simp, pollutantAverages_spec.2 [demoRec 10, demoRec 20] (by simp)⟩

theorem mem_insertDesc {α : Type} (key : α → ℤ) (x b : α) :
    ∀ l : List α, b ∈ insertDesc key x l ↔ b = x ∨ b ∈ l := by
  intro l
  induction l with
  | nil => simp [insertDesc]
  | cons y l ih =>
    simp only [insertDesc]
    split
    · simp [List.mem_cons]
    · simp only [List.mem_cons, ih]
      tauto

theorem insertDesc_perm {α : Type} (key : α → ℤ) (x : α) :
    ∀ l : List α, (insertDesc key x l).Perm (x :: l) := by
  intro l
  induction l with
  | nil => simp [insertDesc]
  | cons y l ih =>
    simp only [insertDesc]
    split
    · exact List.Perm.refl _
    · exact (ih.cons y).trans (List.Perm.swap x y l)

theorem insertDesc_pairwise {α : Type} (key : α → ℤ) (x : α) :
    ∀ l : List α, l.Pairwise (fun a b => key b ≤ key a) →
      (insertDesc key x l).Pairwise (fun a b => key b ≤ key a) := by
  intro l
  induction l with
  | nil => intro _; simp [insertDesc]
  | cons y l ih =>
    intro h
    rw [List.pairwise_cons] at h
    obtain ⟨hy, hl⟩ := h
    simp only [insertDesc]
    split
    · rename_i h1
      rw [List.pairwise_cons]
      refine ⟨?_, by rw [List.pairwise_cons]; exact ⟨hy, hl⟩⟩
      intro b hb
      rcases List.mem_cons.1 hb with rfl | hb
      · exact le_of_lt h1
      · exact (hy b hb).trans (le_of_lt h1)
    · rename_i h1
      rw [List.pairwise_cons]
      refine ⟨?_, ih hl⟩
      intro b hb
      rcases (mem_insertDesc key x b l).1 hb with rfl | hb
      · omega
      · exact hy b hb

theorem insertDesc_filter {α : Type} (key : α → ℤ) (x : α) (v : ℤ) :
    ∀ l : List α, l.Pairwise (fun a b => key b ≤ key a) →
      (insertDesc key x l).filter (fun r => decide (key r = v))
        = if key x = v
          then l.filter (fun r => decide (key r = v)) ++ [x]
          else l.filter (fun r => decide (key r = v)) := by
  intro l
  induction l with
  | nil =>
    intro _
    simp only [insertDesc, List.filter]
    split <;> rename_i h <;> simp_all
  | cons y l ih =>
    intro h
    rw [List.pairwise_cons] at h
    obtain ⟨hy, hl⟩ := h
    simp only [insertDesc]
    split
    · rename_i h1
      by_cases hx : key x = v
      · have hnil : (y :: l).filter (fun r => decide (key r = v)) = [] := by
          rw [List.filter_eq_nil_iff]
          intro b hb
          rcases List.mem_cons.1 hb with rfl | hb
          · simpa using by omega
          · have := hy b hb
            simpa using by omega
        rw [if_pos hx, hnil, List.filter_cons_of_pos (by simpa using hx), hnil]
        rfl
      · rw [if_neg hx, List.filter_cons_of_neg (by simpa using hx)]
    · rename_i h1
      rw [List.filter_cons, List.filter_cons, ih hl]
      by_cases hx : key x = v <;> by_cases hyv : key y = v <;>
        simp [hx, hyv]

theorem sortAux {α : Type} (key : α → ℤ) :
    ∀ (l acc : List α), acc.Pairwise (fun a b => key b ≤ key a) →
      (l.foldl (fun acc x => insertDesc key x acc) acc).Pairwise
          (fun a b => key b ≤ key a)
      ∧ (l.foldl (fun acc x => insertDesc key x acc) acc).Perm (acc ++ l)
      ∧ ∀ v : ℤ,
          (l.foldl (fun acc x => insertDesc key x acc) acc).filter
              (fun r => decide (key r = v))
            = acc.filter (fun r => decide (key r = v))
              ++ l.filter (fun r => decide (key r = v)) := by
  intro l
  induction l with
  | nil =>
    intro acc h
    exact ⟨h, by simp, by simp⟩
  | cons x l ih =>
    intro acc h
    have h1 := insertDesc_pairwise key x acc h
    obtain ⟨ihp, ihperm, ihf⟩ := ih (insertDesc key x acc) h1
    refine ⟨ihp, ?_, ?_⟩
    · rw [List.foldl_cons]
      refine ihperm.trans ?_
      refine ((insertDesc_perm key x acc).append_right l).trans ?_
      exact List.perm_middle.symm
    · intro v
      have := ihf v
      rw [List.foldl_cons, this, insertDesc_filter key x v acc h,
        List.filter_cons]
      by_cases hx : key x = v <;> simp [hx]

/-- C6: for every selected pollutant field, `topCities` returns the 10
records with the highest value of that field in descending order: its
length is `min 10 n`, it is sorted descending on the field, the remaining
records all have a value ≤ every returned record, and among records tied
on the field the output preserves the original input order (it is a prefix
of the original-order tied records). -/
theorem topCities_spec (k : PollutantField) (data : List AQIRecord) :
    (topCities k data).length = min 10 data.length
    ∧ (topCities k data).Pairwise (fun a b => fieldVal k b ≤ fieldVal k a)
    ∧ (∃ rest : List AQIRecord,
        (topCities k data ++ rest).Perm data
        ∧ ∀ y ∈ rest, ∀ x ∈ topCities k data, fieldVal k y ≤ fieldVal k x)
    ∧ ∀ v : ℤ, ∃ m : ℕ,
        (topCities k data).filter (fun r => decide (fieldVal k r = v))
          = (data.filter (fun r => decide (fieldVal k r = v))).take m := by
  obtain ⟨hp, hperm, hf⟩ := sortAux (fieldVal k) data [] (by simp)
  have hperm' : (sortByDesc (fieldVal k) data).Perm data := by
    simpa [sortByDesc] using hperm
  have hsplit : (sortByDesc (fieldVal k) data).take 10
      ++ (sortByDesc (fieldVal k) data).drop 10
      = sortByDesc (fieldVal k) data := List.take_append_drop _ _
  refine ⟨?_, ?_, ?_, ?_⟩
  · rw [topCities, List.length_take, hperm'.length_eq]
  · exact List.Pairwise.sublist (List.take_sublist 10 _) hp
  · refine ⟨(sortByDesc (fieldVal k) data).drop 10, ?_, ?_⟩
    · rw [topCities, hsplit]
      exact hperm'
    · have hp' : ((sortByDesc (fieldVal k) data).take 10
          ++ (sortByDesc (fieldVal k) data).drop 10).Pairwise
            (fun a b => fieldVal k b ≤ fieldVal k a) := by
        rw [hsplit]; exact hp
      obtain ⟨-, -, hcross⟩ := List.pairwise_append.1 hp'
      intro y hy x hx
      exact hcross x hx y hy
  · intro v
    refine ⟨((sortByDesc (fieldVal k) data).take 10).filter
        (fun r => decide (fieldVal k r = v)) |>.length, ?_⟩
    have hsf : (sortByDesc (fieldVal k) data).filter
          (fun r => decide (fieldVal k r = v))
        = data.filter (fun r => decide (fieldVal k r = v)) := by
      simpa [sortByDesc] using hf v
    have hdf : data.filter (fun r => decide (fieldVal k r = v))
        = ((sortByDesc (fieldVal k) data).take 10).filter
            (fun r => decide (fieldVal k r = v))
          ++ ((sortByDesc (fieldVal k) data).drop 10).filter
            (fun r => decide (fieldVal k r = v)) := by
      rw [← hsf, ← List.filter_append, hsplit]
    rw [topCities, hdf]
    exact (List.take_left _ _).symm

/-- C6 witness: the length formula and the stability statement at a
concrete two-record input. -/
theorem topCities_spec_witness :
    (topCities PollutantField.total [demoRec 10, demoRec 20]).length
      = min 10 ([demoRec 10, demoRec 20] : List AQIRecord).length
    ∧ ∃ m : ℕ,
        (topCities PollutantField.total [demoRec 10, demoRec 20]).filter
            (fun r => decide (fieldVal PollutantField.total r = 10))
          = (([demoRec 10, demoRec 20] : List AQIRecord).filter
              (fun r => decide (fieldVal PollutantField.total r = 10))).take m :=
  ⟨(topCities_spec PollutantField.total [demoRec 10, demoRec 20]).1,
   (topCities_spec PollutantField.total [demoRec 10, demoRec 20]).2.2.2 10⟩

theorem bumpCount_sum (c : String) :
    ∀ acc : List (String × ℕ),
      ((bumpCount acc c).map Prod.snd).sum = (acc.map Prod.snd).sum + 1 := by
  intro acc
  induction acc with
  | nil => simp [bumpCount]
  | cons p rest ih =>
    obtain ⟨k', v⟩ := p
    simp only [bumpCount]
    split
    · simp [List.map_cons, List.sum_cons]
      omega
    · simp [List.map_cons, List.sum_cons, ih]
      omega

theorem bumpCount_keys (c : String) :
    ∀ acc : List (String × ℕ),
      (bumpCount acc c).map Prod.fst
        = if c ∈ acc.map Prod.fst then acc.map Prod.fst
          else acc.map Prod.fst ++ [c] := by
  intro acc
  induction acc with
  | nil => simp [bumpCount]
  | cons p rest ih =>
    obtain ⟨k', v⟩ := p
    simp only [bumpCount]
    split
    · rename_i heq
      subst heq
      simp
    · rename_i hne
      simp only [List.map_cons, ih, List.mem_cons]
      by_cases hc : c ∈ rest.map Prod.fst
      · simp [hc, Ne.symm hne]
      · simp [hc, Ne.symm hne]

theorem mem_bumpCount (c : String) :
    ∀ acc : List (String × ℕ), (acc.map Prod.fst).Nodup →
      ∀ p ∈ bumpCount acc c,
        (p ∈ acc ∧ p.1 ≠ c)
        ∨ (∃ n : ℕ, p = (c, n + 1)
            ∧ ((c, n) ∈ acc ∨ (n = 0 ∧ c ∉ acc.map Prod.fst))) := by
  intro acc
  induction acc with
  | nil =>
    intro _ p hp
    simp only [bumpCount, List.mem_singleton] at hp
    exact Or.inr ⟨0, hp, Or.inr ⟨rfl, by simp⟩⟩
  | cons q rest ih =>
    obtain ⟨k', v⟩ := q
    intro hnd p hp
    rw [List.map_cons, List.nodup_cons] at hnd
    obtain ⟨hk', hndr⟩ := hnd
    simp only [bumpCount] at hp
    split at hp
    · rename_i heq
      subst heq
      rcases List.mem_cons.1 hp with rfl | hp
      · exact Or.inr ⟨v, rfl, Or.inl (List.mem_cons_self _ _)⟩
      · -- p is an untouched entry of rest; its key differs from k' = c
        refine Or.inl ⟨List.mem_cons_of_mem _ hp, ?_⟩
        intro hpc
        exact hk' (List.mem_map.2 ⟨p, hp, hpc⟩)
    · rename_i hne
      rcases List.mem_cons.1 hp with rfl | hp
      · exact Or.inl ⟨List.mem_cons_self _ _, hne⟩
      · rcases ih hndr p hp with ⟨hmem, hne'⟩ | ⟨n, rfl, hn⟩
        · exact Or.inl ⟨List.mem_cons_of_mem _ hmem, hne'⟩
        · refine Or.inr ⟨n, rfl, ?_⟩
          rcases hn with hn | ⟨rfl, habs⟩
          · exact Or.inl (List.mem_cons_of_mem _ hn)
          · refine Or.inr ⟨rfl, ?_⟩
            simp only [List.map_cons, List.mem_cons]
            rintro (h | h)
            · exact hne h.symm
            · exact habs h

theorem bumpCount_inv {acc : List (String × ℕ)} {prev : List String}
    (h : CountInv acc prev) (c : String) :
    CountInv (bumpCount acc c) (prev ++ [c]) := by
  obtain ⟨hsum, hent, hkeys, hnd⟩ := h
  refine ⟨?_, ?_, ?_, ?_⟩
  · rw [bumpCount_sum, hsum, List.length_append, List.length_singleton]
  · intro p hp
    rcases mem_bumpCount c acc hnd p hp with ⟨hmem, hne⟩ | ⟨n, rfl, hn⟩
    · obtain ⟨hcount, hpos⟩ := hent p hmem
      have hc0 : List.count p.1 [c] = 0 := by simp [hne]
      rw [List.count_append, hc0]
      exact ⟨by omega, hpos⟩
    · dsimp only
      have hc1 : List.count c [c] = 1 := by simp
      rw [List.count_append, hc1]
      rcases hn with hn | ⟨rfl, habs⟩
      · obtain ⟨hcount, _⟩ := hent (c, n) hn
        dsimp only at hcount
        exact ⟨by omega, by omega⟩
      · have h0 : prev.count c = 0 := by
          rw [List.count_eq_zero]
          intro hc
          exact habs ((hkeys c).2 hc)
        exact ⟨by omega, by omega⟩
  · intro c'
    rw [bumpCount_keys, List.mem_append, List.mem_singleton]
    by_cases hc : c ∈ acc.map Prod.fst
    · rw [if_pos hc, hkeys]
      constructor
      · exact fun h => Or.inl h
      · rintro (h | rfl)
        · exact h
        · exact (hkeys c').1 hc
    · rw [if_neg hc, List.mem_append, List.mem_singleton, hkeys]
  · rw [bumpCount_keys]
    by_cases hc : c ∈ acc.map Prod.fst
    · rw [if_pos hc]; exact hnd
    · rw [if_neg hc]
      exact List.Nodup.append hnd (List.nodup_singleton c)
        (by simpa using hc)

theorem foldl_bumpCount_inv :
    ∀ (cats : List String) (acc : List (String × ℕ)) (prev : List String),
      CountInv acc prev →
      CountInv (cats.foldl bumpCount acc) (prev ++ cats) := by
  intro cats
  induction cats with
  | nil => intro acc prev h; simpa using h
  | cons c cats ih =>
    intro acc prev h
    have h1 := bumpCount_inv h c
    have h2 := ih (bumpCount acc c) (prev ++ [c]) h1
    simpa using h2

/-- Occurrence counts in the mapped list are filtered-length counts. -/
theorem count_map_category (data : List AQIRecord) (c : String) :
    (data.map (fun d => d.aqiCategory)).count c
      = (data.filter (fun d => decide (d.aqiCategory = c))).length := by
  induction data with
  | nil => simp
  | cons d data ih =>
    by_cases h : d.aqiCategory = c
    · simp [List.count_cons, h, ih, List.filter_cons]
    · simp [List.count_cons, h, ih, List.filter_cons]

/-- C7: for every record subset, `categoryDist` maps each distinct
`"AQI Category"` value occurring in the subset to its number of
occurrences, contains no entry for a category not present (no zero
counts, keys are exactly the categories present, without duplicates), and
the counts sum to the size of the subset. -/
theorem categoryDist_spec (data : List AQIRecord) :
    (((categoryDist data).map (fun e => e.2.1)).sum = data.length)
    ∧ (∀ e ∈ categoryDist data,
        e.2.1 = (data.filter (fun d => decide (d.aqiCategory = e.1))).length
        ∧ 0 < e.2.1)
    ∧ (∀ c : String,
        c ∈ (categoryDist data).map (fun e => e.1)
          ↔ c ∈ data.map (fun d => d.aqiCategory))
    ∧ ((categoryDist data).map (fun e => e.1)).Nodup := by
  have hfold : data.foldl (fun acc d => bumpCount acc d.aqiCategory) []
      = (data.map (fun d => d.aqiCategory)).foldl bumpCount [] := by
    rw [List.foldl_map]
  have hinv : CountInv
      ((data.map (fun d => d.aqiCategory)).foldl bumpCount [])
      ([] ++ data.map (fun d => d.aqiCategory)) :=
    foldl_bumpCount_inv _ [] [] ⟨by simp, by simp, by simp, by simp⟩
  rw [List.nil_append] at hinv
  obtain ⟨hsum, hent, hkeys, hnd⟩ := hinv
  refine ⟨?_, ?_, ?_, ?_⟩
  · rw [categoryDist, hfold, List.map_map]
    simpa using hsum
  · intro e he
    rw [categoryDist, hfold] at he
    obtain ⟨p, hp, rfl⟩ := List.mem_map.1 he
    obtain ⟨hcount, hpos⟩ := hent p hp
    exact ⟨by rw [← count_map_category]; exact hcount, hpos⟩
  · intro c
    rw [categoryDist, hfold, List.map_map]
    have : ((fun e : String × ℕ × String => e.1) ∘
        fun p : String × ℕ => (p.1, p.2, catColorOrGray p.1)) = Prod.fst := by
      funext p; rfl
    rw [this, hkeys]
  · rw [categoryDist, hfold, List.map_map]
    have : ((fun e : String × ℕ × String => e.1) ∘
        fun p : String × ℕ => (p.1, p.2, catColorOrGray p.1)) = Prod.fst := by
      funext p; rfl
    rw [this]
    exact hnd

/-- C7 witness: sum-of-counts and the per-entry count at a concrete
two-record input. -/
theorem categoryDist_spec_witness :
    (((categoryDist [demoRec 10, demoRec 20]).map (fun e => e.2.1)).sum
      = ([demoRec 10, demoRec 20] : List AQIRecord).length)
    ∧ (("Good", 2, "#4ade80") ∈ categoryDist [demoRec 10, demoRec 20]
        ∧ (2 : ℕ) = (([demoRec 10, demoRec 20] : List AQIRecord).filter
            (fun d => decide (d.aqiCategory = "Good"))).length
        ∧ (0 : ℕ) < 2) :=
  ⟨(categoryDist_spec [demoRec 10, demoRec 20]).1,
   by decide,
   ((categoryDist_spec [demoRec 10, demoRec 20]).2.1
      ("Good", 2, "#4ade80") (by decide)).1,
   ((categoryDist_spec [demoRec 10, demoRec 20]).2.1
      ("Good", 2, "#4ade80") (by decide)).2⟩

theorem splitCh_ne_nil (c : Char) : ∀ s : Str, splitCh c s ≠ [] := by
  intro s
  induction s with
  | nil => simp [splitCh]
  | cons x xs ih =>
    simp only [splitCh]
    cases h : splitCh c xs with
    | nil => simp
    | cons y ys =>
      dsimp only
      by_cases hx : x = c <;> simp [hx]

theorem mem_joinCh (c : Char) (x : Char) :
    ∀ ls : List Str, x ∈ joinCh c ls → x = c ∨ ∃ s ∈ ls, x ∈ s := by
  intro ls
  induction ls with
  | nil => simp [joinCh]
  | cons s ss ih =>
    cases ss with
    | nil =>
      intro hx
      exact Or.inr ⟨s, by simp, by simpa [joinCh] using hx⟩
    | cons t ts =>
      intro hx
      rw [show joinCh c (s :: t :: ts) = s ++ c :: joinCh c (t :: ts)
        from rfl, List.mem_append, List.mem_cons] at hx
      rcases hx with hx | hx | hx
      · exact Or.inr ⟨s, by simp, hx⟩
      · exact Or.inl hx
      · rcases ih hx with hc | ⟨u, hu, hxu⟩
        · exact Or.inl hc
        · exact Or.inr ⟨u, List.mem_cons_of_mem _ hu, hxu⟩

theorem splitCh_no_sep {c : Char} : ∀ {s : Str}, c ∉ s → splitCh c s = [s] := by
  intro s
  induction s with
  | nil => intro _; simp [splitCh]
  | cons x xs ih =>
    intro h
    have hxc : ¬ x = c := fun hx => h (hx ▸ List.mem_cons_self x xs)
    have hxs : c ∉ xs := fun hc => h (List.mem_cons_of_mem x hc)
    simp only [splitCh, ih hxs]
    simp [hxc]

theorem splitCh_append {c : Char} {a : Str} (rest : Str) (h : c ∉ a) :
    splitCh c (a ++ c :: rest) = a :: splitCh c rest := by
  induction a with
  | nil =>
    obtain ⟨y, ys, heq⟩ := List.exists_cons_of_ne_nil (splitCh_ne_nil c rest)
    simp [splitCh, heq]
  | cons x a' ih =>
    have hxc : ¬ x = c := fun hx => h (hx ▸ List.mem_cons_self x a')
    have ha' : c ∉ a' := fun hc => h (List.mem_cons_of_mem x hc)
    rw [List.cons_append]
    simp only [splitCh]
    rw [ih ha']
    dsimp only
    simp [hxc]

theorem splitCh_joinCh {c : Char} :
    ∀ {ls : List Str}, ls ≠ [] → (∀ s ∈ ls, c ∉ s) →
      splitCh c (joinCh c ls) = ls := by
  intro ls
  induction ls with
  | nil => intro h; exact absurd rfl h
  | cons s ss ih =>
    intro _ hc
    cases ss with
    | nil =>
      rw [show joinCh c [s] = s from rfl]
      exact splitCh_no_sep (hc s (by simp))
    | cons t ts =>
      rw [show joinCh c (s :: t :: ts) = s ++ c :: joinCh c (t :: ts)
        from rfl]
      rw [splitCh_append _ (hc s (by simp))]
      rw [ih (by simp) (fun u hu => hc u (List.mem_cons_of_mem _ hu))]

theorem filterMap_eq_filter_map {α β : Type} (f : α → Option β)
    (p : α → Bool) (m : α → β) :
    ∀ l : List α, (∀ a ∈ l, f a = if p a then some (m a) else none) →
      l.filterMap f = (l.filter p).map m := by
  intro l
  induction l with
  | nil => intro _; simp
  | cons a l ih =>
    intro h
    rw [List.filterMap_cons, List.filter_cons, h a (by simp)]
    have hrest := ih (fun b hb => h b (List.mem_cons_of_mem _ hb))
    by_cases hp : p a <;> simp [hp, hrest]

/-- Parsing the CSV text assembled from a header-field list and row-field
lists (fields free of separators, overall text trim-invariant) produces
exactly the records of the rows whose field count matches the header,
in order. -/
theorem parseCSV_assemble {hs : List Str} {rows : List (List Str)}
    (hnil : hs ≠ [])
    (hhs : ∀ f ∈ hs, ',' ∉ f ∧ '\n' ∉ f)
    (hrows : ∀ r ∈ rows, r ≠ [] ∧ ∀ f ∈ r, ',' ∉ f ∧ '\n' ∉ f)
    (htrim : trim (assemble hs rows) = assemble hs rows) :
    parseCSV (assemble hs rows)
      = (rows.filter (fun r => decide (r.length = hs.length))).map
          (mkRecord hs) := by
  have hlineNoNl : ∀ l ∈ joinCh ',' hs :: rows.map (joinCh ','), '\n' ∉ l := by
    intro l hl
    rcases List.mem_cons.1 hl with rfl | hl
    · intro hx
      rcases mem_joinCh ',' '\n' hs hx with hc | ⟨s, hsmem, hxs⟩
      · exact absurd hc (by decide)
      · exact (hhs s hsmem).2 hxs
    · obtain ⟨r, hr, rfl⟩ := List.mem_map.1 hl
      intro hx
      rcases mem_joinCh ',' '\n' r hx with hc | ⟨s, hsmem, hxs⟩
      · exact absurd hc (by decide)
      · exact ((hrows r hr).2 s hsmem).2 hxs
  have hlines : splitCh '\n' (assemble hs rows)
      = joinCh ',' hs :: rows.map (joinCh ',') :=
    splitCh_joinCh (by simp) hlineNoNl
  have hheaders : splitCh ',' (joinCh ',' hs) = hs :=
    splitCh_joinCh hnil (fun s hsm => (hhs s hsm).1)
  simp only [parseCSV]
  rw [htrim, hlines]
  simp only [List.headD_cons, List.tail_cons, hheaders]
  rw [List.filterMap_map]
  apply filterMap_eq_filter_map
  intro r hr
  simp only [Function.comp]
  rw [splitCh_joinCh (hrows r hr).1 (fun f hf => ((hrows r hr).2 f hf).1)]
  by_cases hlen : r.length = hs.length <;> simp [hlen]

/-- C3: `parse` on a well-formed CSV (header plus N rows, each with the
header's field count, fields free of commas and newlines, distinct header
names, trim-invariant text) yields exactly N records in input order, each
field in a `"Value"` column holding the base-10 integer parse of the text
and every other field the raw column text. -/
theorem parse_wellformed (hs : List Str) (rows : List (List Str))
    ( _hnd : hs.Nodup) (hnil : hs ≠ [])
    (hhs : ∀ f ∈ hs, ',' ∉ f ∧ '\n' ∉ f)
    (hrows : ∀ r ∈ rows,
      r.length = hs.length ∧ ∀ f ∈ r, ',' ∉ f ∧ '\n' ∉ f)
    (htrim : trim (assemble hs rows) = assemble hs rows) :
    parseCSV (assemble hs rows)
      = rows.map (fun r => (hs.zip r).map
          (fun p => (p.1,
            if isValueHeader p.1 then FieldVal.num (parseIntJS p.2)
            else FieldVal.text p.2)))
    ∧ (parseCSV (assemble hs rows)).length = rows.length := by
  have hrows' : ∀ r ∈ rows, r ≠ [] ∧ ∀ f ∈ r, ',' ∉ f ∧ '\n' ∉ f := by
    intro r hr
    refine ⟨?_, (hrows r hr).2⟩
    intro hrnil
    have := (hrows r hr).1
    rw [hrnil] at this
    exact hnil (List.length_eq_zero.1 this.symm)
  have hcore := parseCSV_assemble hnil hhs hrows' htrim
  have hfilter : rows.filter (fun r => decide (r.length = hs.length))
      = rows := by
    rw [List.filter_eq_self]
    intro r hr
    simp [(hrows r hr).1]
  rw [hcore, hfilter]
  constructor
  · rfl
  · simp

/-- C4: rows whose field count differs from the header count are silently
skipped: `parse` returns exactly the records of the matching rows, in
order, with no error and no shifting of the remaining rows. -/
theorem parse_skips_malformed (hs : List Str) (rows : List (List Str))
    ( _hnd : hs.Nodup) (hnil : hs ≠ [])
    (hhs : ∀ f ∈ hs, ',' ∉ f ∧ '\n' ∉ f)
    (hrows : ∀ r ∈ rows, r ≠ [] ∧ ∀ f ∈ r, ',' ∉ f ∧ '\n' ∉ f)
    (htrim : trim (assemble hs rows) = assemble hs rows) :
    parseCSV (assemble hs rows)
      = (rows.filter (fun r => decide (r.length = hs.length))).map
          (mkRecord hs) :=
  parseCSV_assemble hnil hhs hrows htrim

theorem pair_mem_zip {α β : Type} :
    ∀ (l₁ : List α) (l₂ : List β) (j : ℕ) (h1 : j < l₁.length)
      (h2 : j < l₂.length),
      (l₁.get ⟨j, h1⟩, l₂.get ⟨j, h2⟩) ∈ l₁.zip l₂ := by
  intro l₁
  induction l₁ with
  | nil => intro l₂ j h1 h2; simp at h1
  | cons a l₁ ih =>
    intro l₂ j h1 h2
    cases l₂ with
    | nil => simp at h2
    | cons b l₂ =>
      cases j with
      | zero => simp [List.zip_cons_cons]
      | succ j =>
        have := ih l₂ j (by simpa using h1) (by simpa using h2)
        simpa [List.zip_cons_cons] using Or.inr this

/-- C9: in a row of the correct field count, a `"Value"`-column field that
fails base-10 integer parsing still produces the record, with the `NaN`
sentinel (`none`) stored at that field; no error is raised. -/
theorem parse_nan_sentinel (hs : List Str) (rows : List (List Str))
    (r : List Str) (j : ℕ)
    ( _hnd : hs.Nodup) (hnil : hs ≠ [])
    (hhs : ∀ f ∈ hs, ',' ∉ f ∧ '\n' ∉ f)
    (hrows : ∀ r' ∈ rows, r' ≠ [] ∧ ∀ f ∈ r', ',' ∉ f ∧ '\n' ∉ f)
    (htrim : trim (assemble hs rows) = assemble hs rows)
    (hr : r ∈ rows) (hlen : r.length = hs.length)
    (hj : j < hs.length) (hj' : j < r.length)
    (hval : isValueHeader (hs.get ⟨j, hj⟩) = true)
    (hfail : parseIntJS (r.get ⟨j, hj'⟩) = none) :
    mkRecord hs r ∈ parseCSV (assemble hs rows)
    ∧ (hs.get ⟨j, hj⟩, FieldVal.num none) ∈ mkRecord hs r := by
  constructor
  · rw [parseCSV_assemble hnil hhs hrows htrim]
    exact List.mem_map_of_mem _ (List.mem_filter.2 ⟨hr, by simp [hlen]⟩)
  · have hzip : (hs.get ⟨j, hj⟩, r.get ⟨j, hj'⟩) ∈ hs.zip r :=
      pair_mem_zip hs r j hj hj'
    have hval2 : isValueHeader hs[j] = true := hval
    have hfail2 : parseIntJS r[j] = none := hfail
    have hmem := List.mem_map_of_mem (fun p => mkField p.1 p.2) hzip
    rw [mkRecord]
    simpa [mkField, hval2, hfail2] using hmem

/-- C3 witness: the well-formed-parse statement at a concrete two-row CSV. -/
theorem parse_wellformed_witness :
    demoHeaders ≠ []
    ∧ parseCSV (assemble demoHeaders demoRows)
        = demoRows.map (fun r => (demoHeaders.zip r).map
            (fun p => (p.1,
              if isValueHeader p.1 then FieldVal.num (parseIntJS p.2)
              else FieldVal.text p.2)))
    ∧ (parseCSV (assemble demoHeaders demoRows)).length = demoRows.length :=
  ⟨by decide,
   (parse_wellformed demoHeaders demoRows (by decide) (by decide)
     (by decide) (by decide) (by decide)).1,
   (parse_wellformed demoHeaders demoRows (by decide) (by decide)
     (by decide) (by decide) (by decide)).2⟩

/-- C4 witness: the malformed-row-skipping statement at a concrete CSV with
a short row between two well-formed rows. -/
theorem parse_skips_malformed_witness :
    demoHeaders ≠ []
    ∧ parseCSV (assemble demoHeaders demoRowsMixed)
        = (demoRowsMixed.filter
            (fun r => decide (r.length = demoHeaders.length))).map
            (mkRecord demoHeaders) :=
  ⟨by decide,
   parse_skips_malformed demoHeaders demoRowsMixed (by decide) (by decide)
     (by decide) (by decide) (by decide)⟩

/-- C9 witness: the NaN-sentinel statement at a concrete CSV whose
`"AQI Value"` field is the non-numeric text `abc`. -/
theorem parse_nan_sentinel_witness :
    isValueHeader (demoHeaders.get ⟨1, by decide⟩) = true
    ∧ parseIntJS (demoBadRow.get ⟨1, by decide⟩) = none
    ∧ mkRecord demoHeaders demoBadRow
        ∈ parseCSV (assemble demoHeaders [demoBadRow])
    ∧ (demoHeaders.get ⟨1, by decide⟩, FieldVal.num none)
        ∈ mkRecord demoHeaders demoBadRow :=
  ⟨by decide, by decide,
   (parse_nan_sentinel demoHeaders [demoBadRow] demoBadRow 1 (by decide)
     (by decide) (by decide) (by decide) (by decide) (by decide) (by decide)
     (by decide) (by decide) (by decide) (by decide)).1,
   (parse_nan_sentinel demoHeaders [demoBadRow] demoBadRow 1 (by decide)
     (by decide) (by decide) (by decide) (by decide) (by decide) (by decide)
     (by decide) (by decide) (by decide) (by decide)).2⟩

end AirQuality
